import Mathlib

/-!
Verification of the SWAT virtual-filesystem / shell-pipeline core against its
natural-language specification.  JS strings are embedded as Lean `String`
(operated on through their `List Char` data where convenient), JS arrays as
`List`, JS objects used as maps as association lists, and fallible operations
as `Except`/`Option`.
-/

set_option maxHeartbeats 1000000

/-- Embedding of JavaScript `String.prototype.split(sep)` for a one-character
separator, on the character-list level: splits at every occurrence of `sep`,
keeping empty chunks (`"".split('/') === [""]`, `"/".split('/') === ["", ""]`). -/
def splitChar (sep : Char) : List Char → List (List Char)
  | [] => [[]]
  | c :: rest =>
    if c = sep then [] :: splitChar sep rest
    else
      match splitChar sep rest with
      | [] => [[c]]
      | h :: t => (c :: h) :: t

/-- Embedding of JavaScript `Array.prototype.join(sep)` for a one-character
separator. -/
def joinSep (sep : Char) : List (List Char) → List Char
  | [] => []
  | [x] => x
  | x :: y :: rest => x ++ sep :: joinSep sep (y :: rest)

/-- The two-character segment `..`. -/
def ddSeg : List Char := ['.', '.']

/-- The segment filter of `normalizePath` (src/unnamed/part_001:596 / 1141):
`.filter(p => p && p !== '.')` — drop empty and `.` segments after splitting
on `/`. -/
def normSegs (l : List Char) : List (List Char) :=
  (splitChar '/' l).filter (fun seg => !seg.isEmpty && seg != ['.'])

/-- The stack loop of `normalizePath` (src/unnamed/part_001:597-604 / 1142-1149):
for each `..` pop the stack (JavaScript `Array.pop` is a no-op on an empty
array), otherwise push the segment. -/
def normStack (parts : List (List Char)) : List (List Char) :=
  parts.foldl (fun st part => if part = ddSeg then st.dropLast else st ++ [part]) []

/-- Does the path start with `/`?  Embeds `path.startsWith('/')`
(src/unnamed/part_001:595 / 1140). -/
def isAbsolute (s : List Char) : Bool :=
  match s with
  | '/' :: _ => true
  | _ => false

/-- `VFS.normalizePath` from src/unnamed/part_001 lines 594-606 (= 1139-1151):
prefix a relative path with the cwd, split on `/`, drop empty and `.`
segments, resolve `..` by popping (clamping at root), and rejoin with a
single leading `/`. -/
def normalizePath (path cwd : String) : String :=
  let p : List Char := if isAbsolute path.data then path.data else cwd.data ++ '/' :: path.data
  String.mk ('/' :: joinSep '/' (normStack (normSegs p)))

/-! Lemmas about `splitChar` / `joinSep`. -/

theorem splitChar_ne_nil (sep : Char) (l : List Char) : splitChar sep l ≠ [] := by
  cases l with
  | nil => simp [splitChar]
  | cons c rest =>
    simp only [splitChar]
    split
    · simp
    · split <;> simp_all

theorem splitChar_sep_not_mem (sep : Char) (l : List Char) :
    ∀ x ∈ splitChar sep l, sep ∉ x := by
  induction l with
  | nil => intro x hx; simp [splitChar] at hx; simp [hx]
  | cons c rest ih =>
    intro x hx
    simp only [splitChar] at hx
    by_cases hc : c = sep
    · simp [hc] at hx
      rcases hx with h | h
      · simp [h]
      · exact ih x h
    · simp only [if_neg hc] at hx
      rcases hh : splitChar sep rest with _ | ⟨h0, t0⟩
      · exact absurd hh (splitChar_ne_nil sep rest)
      · rw [hh] at hx
        rcases List.mem_cons.mp hx with h | h
        · subst h
          intro hmem
          rcases List.mem_cons.mp hmem with h | h
          · exact hc h.symm
          · exact ih h0 (hh ▸ List.mem_cons_self h0 t0) h
        · exact ih x (hh ▸ List.mem_cons_of_mem h0 h)

theorem splitChar_append_sep (sep : Char) (l₁ l₂ : List Char) :
    splitChar sep (l₁ ++ sep :: l₂) = splitChar sep l₁ ++ splitChar sep l₂ := by
  induction l₁ with
  | nil => simp [splitChar]
  | cons c rest ih =>
    by_cases hc : c = sep
    · simp [splitChar, hc, ih]
    · simp only [List.cons_append, splitChar, if_neg hc, List.append_eq]
      rw [ih]
      rcases hh : splitChar sep rest with _ | ⟨h0, t0⟩
      · exact absurd hh (splitChar_ne_nil sep rest)
      · simp

theorem splitChar_no_sep (sep : Char) (l : List Char) (h : sep ∉ l) :
    splitChar sep l = [l] := by
  induction l with
  | nil => rfl
  | cons c rest ih =>
    simp only [List.mem_cons, not_or] at h
    have hcs : ¬ c = sep := fun hc => h.1 hc.symm
    simp only [splitChar, if_neg hcs, ih h.2]

theorem splitChar_joinSep (sep : Char) (S : List (List Char)) (hne : S ≠ [])
    (h : ∀ s ∈ S, sep ∉ s) : splitChar sep (joinSep sep S) = S := by
  induction S with
  | nil => exact absurd rfl hne
  | cons x rest ih =>
    cases rest with
    | nil =>
      simp only [joinSep]
      exact splitChar_no_sep sep x (h x (List.mem_cons_self x []))
    | cons y t =>
      simp only [joinSep, splitChar_append_sep]
      rw [splitChar_no_sep sep x (h x (List.mem_cons_self x (y :: t)))]
      rw [ih (by simp) (fun s hs => h s (List.mem_cons_of_mem x hs))]
      rfl

/-! Lemmas about `normStack`. -/

theorem normStack_go_mem (parts : List (List Char)) :
    ∀ (init : List (List Char)) (s : List Char),
      s ∈ parts.foldl (fun st part => if part = ddSeg then st.dropLast else st ++ [part]) init →
      s ∈ init ∨ (s ∈ parts ∧ s ≠ ddSeg) := by
  induction parts with
  | nil => intro init s h; exact Or.inl h
  | cons p rest ih =>
    intro init s h
    simp only [List.foldl_cons] at h
    rcases ih _ s h with hin | ⟨hmem, hne⟩
    · by_cases hp : p = ddSeg
      · rw [if_pos hp] at hin
        exact Or.inl (List.dropLast_subset init hin)
      · rw [if_neg hp] at hin
        rcases List.mem_append.mp hin with h1 | h1
        · exact Or.inl h1
        · simp only [List.mem_singleton] at h1
          exact Or.inr ⟨h1 ▸ List.mem_cons_self p rest, h1 ▸ hp⟩
    · exact Or.inr ⟨List.mem_cons_of_mem p hmem, hne⟩

theorem normStack_mem (parts : List (List Char)) (s : List Char)
    (h : s ∈ normStack parts) : s ∈ parts ∧ s ≠ ddSeg := by
  rcases normStack_go_mem parts [] s h with h1 | h1
  · simp at h1
  · exact h1

theorem normStack_id_go (S : List (List Char)) (h : ∀ s ∈ S, s ≠ ddSeg) :
    ∀ init, S.foldl (fun st part => if part = ddSeg then st.dropLast else st ++ [part]) init
      = init ++ S := by
  induction S with
  | nil => intro init; simp
  | cons x rest ih =>
    intro init
    simp only [List.foldl_cons, if_neg (h x (List.mem_cons_self x rest))]
    rw [ih (fun s hs => h s (List.mem_cons_of_mem x hs))]
    simp

theorem normStack_id (S : List (List Char)) (h : ∀ s ∈ S, s ≠ ddSeg) :
    normStack S = S := by
  simpa [normStack] using normStack_id_go S h []

/-- C6 helper: the stack produced from any input consists of segments that are
non-empty, contain no `/`, and are not `.` or `..`. -/
theorem normStack_normSegs_facts (p : List Char) (s : List Char)
    (h : s ∈ normStack (normSegs p)) :
    s ≠ [] ∧ s ≠ ['.'] ∧ s ≠ ddSeg ∧ '/' ∉ s := by
  obtain ⟨hmem, hdd⟩ := normStack_mem _ s h
  have hfil := List.mem_filter.mp hmem
  have hsplit := hfil.1
  have hpred := hfil.2
  simp only [Bool.and_eq_true, bne_iff_ne, ne_eq, Bool.not_eq_true'] at hpred
  refine ⟨?_, hpred.2, hdd, splitChar_sep_not_mem '/' p s hsplit⟩
  intro hnil
  rw [hnil] at hpred
  simp at hpred

theorem normSegs_abs_joinSep (S : List (List Char))
    (hfacts : ∀ s ∈ S, s ≠ [] ∧ s ≠ ['.'] ∧ s ≠ ddSeg ∧ '/' ∉ s) :
    normSegs ('/' :: joinSep '/' S) = S := by
  show ((splitChar '/' ('/' :: joinSep '/' S)).filter _) = S
  have hsplit0 : splitChar '/' ('/' :: joinSep '/' S) = [] :: splitChar '/' (joinSep '/' S) := by
    simp [splitChar]
  rw [hsplit0]
  cases hSnil : S with
  | nil => rfl
  | cons a t =>
    rw [← hSnil]
    have hj : splitChar '/' (joinSep '/' S) = S :=
      splitChar_joinSep '/' S (by rw [hSnil]; simp) (fun s hs => (hfacts s hs).2.2.2)
    rw [hj, List.filter_cons]
    simp only [List.isEmpty_nil, Bool.not_true, Bool.false_and, Bool.false_eq_true, if_false]
    apply List.filter_eq_self.mpr
    intro s hs
    obtain ⟨h1, h2, _, _⟩ := hfacts s hs
    simp [h1, h2]

theorem normalizePath_mk_abs (cwd : String) (S : List (List Char))
    (hfacts : ∀ s ∈ S, s ≠ [] ∧ s ≠ ['.'] ∧ s ≠ ddSeg ∧ '/' ∉ s) :
    normalizePath (String.mk ('/' :: joinSep '/' S)) cwd = String.mk ('/' :: joinSep '/' S) := by
  have habs : isAbsolute (String.mk ('/' :: joinSep '/' S)).data = true := rfl
  have hsegs := normSegs_abs_joinSep S hfacts
  have hid := normStack_id S (fun s hs => (hfacts s hs).2.2.1)
  simp only [normalizePath, habs, if_true]
  rw [hsegs, hid]

/-- **C6**: `normalize` is idempotent:
`normalize(normalize(p, cwd), cwd) = normalize(p, cwd)` for all `p` and `cwd`
(spec §8; `normalizePath`, src/unnamed/part_001:594-606). -/
theorem normalizePath_idempotent (p cwd : String) :
    normalizePath (normalizePath p cwd) cwd = normalizePath p cwd := by
  have hshape : ∀ q : List Char,
      normalizePath p cwd = String.mk ('/' :: joinSep '/' (normStack (normSegs q))) →
      normalizePath (normalizePath p cwd) cwd = normalizePath p cwd := by
    intro q hq
    rw [hq]
    exact normalizePath_mk_abs cwd (normStack (normSegs q)) (normStack_normSegs_facts q)
  cases habs : isAbsolute p.data with
  | true =>
    exact hshape p.data (by simp [normalizePath, habs])
  | false =>
    exact hshape (cwd.data ++ '/' :: p.data) (by simp [normalizePath, habs])

/-- Number of retained path segments of `cwd` (its depth from root) after
normalization, used to state the root-clamp property. -/
def pathDepth (cwd : String) : Nat :=
  (normStack (normSegs cwd.data)).length

/-- The relative path made of `k` `..` segments joined by `/`
(e.g. `dotdotPath 3 = "../../.."`). -/
def dotdotPath (k : Nat) : String :=
  String.mk (joinSep '/' (List.replicate k ddSeg))

theorem isAbsolute_dotdot (k : Nat) :
    isAbsolute (joinSep '/' (List.replicate k ddSeg)) = false := by
  cases k with
  | zero => rfl
  | succ n =>
    cases n with
    | zero => rfl
    | succ m => rfl

theorem foldl_dotdot_nil (k : Nat) :
    ∀ st : List (List Char), st.length ≤ k →
      (List.replicate k ddSeg).foldl
        (fun st part => if part = ddSeg then st.dropLast else st ++ [part]) st = [] := by
  induction k with
  | zero =>
    intro st h
    have : st = [] := List.length_eq_zero.mp (Nat.le_zero.mp h)
    simp [this]
  | succ n ih =>
    intro st h
    rw [List.replicate_succ, List.foldl_cons]
    have hstep : (if ddSeg = ddSeg then st.dropLast else st ++ [ddSeg]) = st.dropLast :=
      if_pos rfl
    rw [hstep]
    apply ih
    rw [List.length_dropLast]
    omega

/-- **C2**: root-clamp: `normalizePath` is a total function (it never raises),
and a path of `k` `..` segments with `k` at least the depth of `cwd` from the
root normalizes to exactly `"/"` (spec §4.2, §8; `normalizePath`,
src/unnamed/part_001:594-606). -/
theorem dotdot_overflow_clamps_to_root (cwd : String) (k : Nat)
    (h : pathDepth cwd ≤ k) :
    normalizePath (dotdotPath k) cwd = "/" := by
  have habs : isAbsolute (dotdotPath k).data = false := isAbsolute_dotdot k
  have hdd : (dotdotPath k).data = joinSep '/' (List.replicate k ddSeg) := rfl
  have hsegs : normSegs (cwd.data ++ '/' :: joinSep '/' (List.replicate k ddSeg))
      = normSegs cwd.data ++ List.replicate k ddSeg := by
    show (splitChar '/' _).filter _ = _
    rw [splitChar_append_sep]
    rw [List.filter_append]
    congr 1
    cases k with
    | zero => rfl
    | succ n =>
      rw [splitChar_joinSep '/' (List.replicate (n + 1) ddSeg) (by simp)
        (by intro s hs; rw [List.eq_of_mem_replicate hs]; simp [ddSeg])]
      apply List.filter_eq_self.mpr
      intro s hs
      rw [List.eq_of_mem_replicate hs]
      simp [ddSeg]
  have hstack : normStack (normSegs cwd.data ++ List.replicate k ddSeg) = [] := by
    simp only [normStack, List.foldl_append]
    exact foldl_dotdot_nil k _ h
  simp only [normalizePath, dotdotPath, isAbsolute_dotdot, Bool.false_eq_true, if_false,
    hsegs, hstack, joinSep]

theorem dotdot_overflow_clamps_to_root_witness :
    pathDepth "/a/b" ≤ 5 ∧ normalizePath (dotdotPath 5) "/a/b" = "/" :=
  ⟨by decide, dotdot_overflow_clamps_to_root "/a/b" 5 (by decide)⟩

/-! ## Virtual filesystem state -/

/-- A stored file node: `{type, content, mtime}` (spec §3; the `write`
implementation at src/unnamed/part_001:465-469 stores
`{ type: 'text', content, mtime: Date.now() }`). -/
structure FileNode where
  type : String
  content : String
  mtime : Nat
deriving DecidableEq, Repr

/-- The filesystem state `{cwd, files, history}` (spec §3).  The JS object
`files` keyed by path is embedded as an association list with unique keys;
only key lookup and key update are used. -/
structure FSState where
  cwd : String
  files : List (String × FileNode)
  history : List String
deriving DecidableEq, Repr

/-- JS object property read `obj[key]`. -/
def lookupKey {α : Type} : List (String × α) → String → Option α
  | [], _ => none
  | (k, v) :: rest, key => if k = key then some v else lookupKey rest key

/-- JS object property write `obj[key] = v`: replaces the entry in place if
the key exists, otherwise appends it. -/
def setKey {α : Type} : List (String × α) → String → α → List (String × α)
  | [], key, v => [(key, v)]
  | (k, w) :: rest, key, v =>
    if k = key then (key, v) :: rest else (k, w) :: setKey rest key v

theorem lookupKey_setKey {α : Type} (l : List (String × α)) (key : String) (v : α) :
    lookupKey (setKey l key v) key = some v := by
  induction l with
  | nil => simp [setKey, lookupKey]
  | cons p rest ih =>
    obtain ⟨k, w⟩ := p
    by_cases hk : k = key
    · simp [setKey, hk, lookupKey]
    · simp [setKey, hk, lookupKey, ih]

namespace VFS

/-- `vfs.write(path, content)` from src/unnamed/part_001 lines 465-469:
normalize the path against the current cwd and upsert a text FileNode with
the current timestamp (persistence of the whole state is the identity on the
in-memory state embedded here). -/
def write (st : FSState) (path content : String) (now : Nat) : FSState :=
  let p := normalizePath path st.cwd
  { st with files := setKey st.files p ⟨"text", content, now⟩ }

/-- `vfs.read(path)` from src/unnamed/part_001 lines 424-426 together with
spec §4.2: normalize the path, fail with `ENOENT` when no FileNode exists at
it or its type is not `text`, otherwise return the stored content. -/
def read (st : FSState) (path : String) : Except String String :=
  let p := normalizePath path st.cwd
  match lookupKey st.files p with
  | none => Except.error "ENOENT"
  | some f => if f.type = "text" then Except.ok f.content else Except.error "ENOENT"

/-- `vfs.cwd()` (spec §4.2): the current working directory. -/
def cwd (st : FSState) : String := st.cwd

/-- Total order used for the lexicographic listing. -/
def lexLe : List Char → List Char → Bool
  | [], _ => true
  | _ :: _, [] => false
  | a :: as, b :: bs => if a = b then lexLe as bs else decide (a.toNat < b.toNat)

def strLe (a b : String) : Bool := lexLe a.data b.data

def insertStr (x : String) : List String → List String
  | [] => [x]
  | y :: ys => if strLe x y then x :: y :: ys else y :: insertStr x ys

def sortStrs (l : List String) : List String := l.foldr insertStr []

def dedupSorted : List String → List String
  | [] => []
  | [x] => [x]
  | x :: y :: r => if x = y then dedupSorted (y :: r) else x :: dedupSorted (y :: r)

/-- Modelled from the spec: `vfs.list(dir)` of lib/vfs.js is not under src/;
spec §4.2 says: normalize `dir`, then return the lexicographically ordered,
deduplicated set of distinct immediate children one path segment below `dir`
(files and implied sub-paths). -/
def list (st : FSState) (dir : String) : List String :=
  let d := normalizePath dir st.cwd
  let preChars : List Char := if d = "/" then d.data else d.data ++ ['/']
  let children := st.files.filterMap (fun kv =>
    if preChars.isPrefixOf kv.1.data then
      match (kv.1.data).drop preChars.length with
      | [] => none
      | rest => some (String.mk (rest.takeWhile (fun c => !(c = '/'))))
    else none)
  dedupSorted (sortStrs children)

/-- Modelled from the spec: `vfs.historyPush(cmd)` of lib/vfs.js is not under
src/; spec §4.2 says it appends to the bounded history buffer, evicting the
oldest entry once the (fixed but unspecified) capacity is exceeded. -/
def historyCap : Nat := 100

/-- Modelled from the spec: see `historyCap`. -/
def historyPush (st : FSState) (cmd : String) : FSState :=
  let h := st.history ++ [cmd]
  { st with history := h.drop (h.length - historyCap) }

end VFS

/-- **C3**: for every state, path and content (including the empty content),
`write(path, content)` followed by `read(path)` returns exactly `content`
(spec §8; src/unnamed/part_001:465-469 and 424-426). -/
theorem write_then_read (st : FSState) (path content : String) (now : Nat) :
    VFS.read (VFS.write st path content now) path = Except.ok content := by
  simp [VFS.read, VFS.write, lookupKey_setKey]

/-! ## Persistent key-value store -/

/-- `StorageAdapter.get(key)` from src/unnamed/part_001 lines 432-439:
`localStorage.getItem(this.prefix + key)` is embedded as the external
function `getItem`, `JSON.parse` as the external function `parse`
(`none` = the parse threw).  The second component collects the console
messages logged during the call: the source's `catch (e) { return null; }`
block logs nothing, so it is `[]` on every path. -/
def storageGet {α : Type} (getItem : String → Option String)
    (parse : String → Option α) (pre key : String) : Option α × List String :=
  match getItem (pre ++ key) with
  | none => (none, [])
  | some v =>
    if v = "" then (none, [])
    else
      match parse v with
      | some a => (some a, [])
      | none => (none, [])

/-- **C5**: when the stored raw value fails to deserialize, `get` degrades to
`null` but emits no log message at all — contradicting the spec's demand that
the failure "must be logged, never silently assumed equivalent to absent by
design" (spec §4.1; src/unnamed/part_001:432-439, whose catch block is a bare
`return null`). -/
theorem storageGet_swallows_parse_failure {α : Type}
    (getItem : String → Option String) (parse : String → Option α)
    (pre key v : String) (h1 : getItem (pre ++ key) = some v)
    (h2 : v ≠ "") (h3 : parse v = none) :
    storageGet getItem parse pre key = (none, []) := by
  simp [storageGet, h1, h2, h3]

theorem storageGet_swallows_parse_failure_witness :
    storageGet (fun _ => some "not json") (fun _ => (none : Option Nat)) "swat:" "k"
      = (none, []) :=
  storageGet_swallows_parse_failure (fun _ => some "not json")
    (fun _ => (none : Option Nat)) "swat:" "k" "not json" rfl (by decide) rfl

/-! ## Command results and the built-in commands of the terminal demo -/

/-- A handler's result object: `stdout`/`stderr` default to the empty string,
and `exitCode` is `none` when the handler's returned object has no
`exitCode` field. -/
structure CommandResult where
  stdout : String := ""
  stderr : String := ""
  exitCode : Option Nat := none
deriving DecidableEq, Repr

/-- Modelled from the spec: CommandResult's `exitCode` defaults to 0
(spec §3) — the exit code observed by the executor and the caller when the
field is absent. -/
def effectiveExitCode (r : CommandResult) : Nat := r.exitCode.getD 0

/-- The `--help`/`-h` test shared by every built-in command
(src/unnamed/part_001:203, 209, 215, 222, 231, 238, 244, 253, 263):
`args.includes('--help') || args.includes('-h')`. -/
def helpFlag (args : List String) : Bool :=
  args.contains "--help" || args.contains "-h"

def echoUsage : String := "echo: print arguments to stdout\nUsage: echo [options] [args...]\nOptions:\n  --help, -h  Show this help\n"
def pwdUsage : String := "pwd: print working directory\nUsage: pwd [options]\nOptions:\n  --help, -h  Show this help\n"
def writeUsage : String := "write: write content to file\nUsage: write [options] <path> <content>\nOptions:\n  --help, -h  Show this help\n"
def catUsage : String := "cat: concatenate files or stdin\nUsage: cat [options] [file]\nOptions:\n  --help, -h  Show this help\n"
def lsUsage : String := "ls: list directory contents\nUsage: ls [options] [dir]\nOptions:\n  --help, -h  Show this help\n"
def historyUsage : String := "history: show command history\nUsage: history [options]\nOptions:\n  --help, -h  Show this help\n"
def curlUsage : String := "curl: fetch URL content\nUsage: curl [options] <url>\nOptions:\n  --help, -h  Show this help\n"
def grepUsage : String := "grep: search for pattern in input\nUsage: grep [options] <pattern>\nOptions:\n  --help, -h  Show this help\n"
def helpUsage : String := "help: show available commands\nUsage: help [options] [command]\nOptions:\n  --help, -h  Show this help\n"

/-- The result `{ stdout: usage }` every command returns on `--help`/`-h`. -/
def usageRes (s : String) : CommandResult := { stdout := s }

/-- `echo` (src/unnamed/part_001:202-207). -/
def echoCmd (args : List String) : CommandResult :=
  if helpFlag args then usageRes echoUsage
  else { stdout := String.intercalate " " args ++ "\n" }

/-- `pwd` (src/unnamed/part_001:208-213). -/
def pwdCmd (args : List String) (st : FSState) : CommandResult :=
  if helpFlag args then usageRes pwdUsage
  else { stdout := VFS.cwd st ++ "\n" }

/-- `write` (src/unnamed/part_001:214-220).  `args[0]` is embedded as
`args.headD ""` (no claim exercises the argument-free call, which in the
original throws inside `normalizePath`). -/
def writeCmd (args : List String) (st : FSState) (now : Nat) : CommandResult × FSState :=
  if helpFlag args then (usageRes writeUsage, st)
  else
    let path := args.headD ""
    let content := String.intercalate " " (args.drop 1)
    ({ stdout := "Wrote " ++ path ++ "\n" }, VFS.write st path content now)

/-- `cat` (src/unnamed/part_001:221-229). -/
def catCmd (args : List String) (stdin : String) (st : FSState) : CommandResult :=
  if helpFlag args then usageRes catUsage
  else
    match args with
    | [] => { stdout := stdin }
    | a :: _ =>
      match VFS.read st a with
      | Except.ok txt => { stdout := txt }
      | Except.error _ => { stderr := "cat: " ++ a ++ ": No such file\n", exitCode := some 1 }

/-- The directory argument of `ls`: `args[0] || '/'`
(src/unnamed/part_001:234). -/
def lsDirArg (args : List String) : String :=
  match args with
  | [] => "/"
  | a :: _ => if a = "" then "/" else a

/-- `ls` (src/unnamed/part_001:230-236):
`{ stdout: list.join('\n') + (list.length ? '\n' : '') }`. -/
def lsCmd (args : List String) (st : FSState) : CommandResult :=
  if helpFlag args then usageRes lsUsage
  else
    let l := VFS.list st (lsDirArg args)
    { stdout := String.intercalate "\n" l ++ (if l.length = 0 then "" else "\n") }

/-- `history` (src/unnamed/part_001:237-242). -/
def historyCmd (args : List String) (st : FSState) : CommandResult :=
  if helpFlag args then usageRes historyUsage
  else { stdout := String.intercalate "\n" st.history ++ "\n" }

/-- The value `safeFetch` resolves to (lib/stdlib.js, external collaborator):
`{ ok, status, text, error }`. -/
structure FetchResult where
  ok : Bool
  status : Nat
  text : String
  error : String
deriving DecidableEq, Repr

/-- `curl` (src/unnamed/part_001:243-251); the outbound fetch is the external
function `fetch`.  `r.error || r.status` falls back to the numeric status
when the error string is empty. -/
def curlCmd (args : List String) (fetch : String → FetchResult) : CommandResult :=
  if helpFlag args then usageRes curlUsage
  else
    match args with
    | [] => { stderr := "curl: missing url\n" }
    | url :: _ =>
      if url = "" then { stderr := "curl: missing url\n" }
      else
        let r := fetch url
        if !r.ok then
          { stderr := "curl: failed: " ++ (if r.error = "" then toString r.status else r.error) ++ "\n" }
        else { stdout := r.text }

/-- JS whitespace (`/\s/` on the ASCII range; the source only ever meets
space, tab, CR and LF). -/
def isJsSpace (c : Char) : Bool :=
  c = ' ' || c = '\t' || c = '\n' || c = '\r' || c = '\x0b' || c = '\x0c'

/-- Embedding of `String.prototype.trim()`. -/
def jsTrim (s : String) : String :=
  String.mk (((s.data.dropWhile isJsSpace).reverse.dropWhile isJsSpace).reverse)

/-- Substring test: embedding of `String.prototype.includes(pat)`. -/
def hasSub : List Char → List Char → Bool
  | [], needle => needle.isEmpty
  | c :: t, needle => needle.isPrefixOf (c :: t) || hasSub t needle

/-- Embedding of JavaScript `split` on `String`s. -/
def jsSplit (sep : Char) (s : String) : List String :=
  (splitChar sep s.data).map String.mk

def jsIncludes (s pat : String) : Bool := hasSub s.data pat.data

/-- `grep` (src/unnamed/part_001:252-261): split stdin on newlines, keep the
lines whose trim is non-empty, keep those containing the pattern, re-join. -/
def grepCmd (args : List String) (stdin : String) : CommandResult :=
  if helpFlag args then usageRes grepUsage
  else
    match args with
    | [] => { stderr := "grep: missing pattern\n" }
    | pat :: _ =>
      if pat = "" then { stderr := "grep: missing pattern\n" }
      else
        let lines := (jsSplit '\n' stdin).filter (fun l => !(jsTrim l = ""))
        let ms := lines.filter (fun l => jsIncludes l pat)
        { stdout := String.intercalate "\n" ms ++ (if ms.length = 0 then "" else "\n") }

/-- `help` (src/unnamed/part_001:262-268); `registry.list()` is passed in as
the sorted name list `names`. -/
def helpCmd (args : List String) (names : List String) : CommandResult :=
  if helpFlag args then usageRes helpUsage
  else { stdout := "Available commands:\n" ++ String.intercalate "\n" names ++ "\nUse <command> --help for details.\n" }

/-- **C7**: for every built-in command of the terminal demo and every argument
list containing `--help` or `-h` anywhere, the command short-circuits to its
fixed usage string on stdout instead of performing its normal behavior — in
particular `write` leaves the filesystem untouched (spec §6;
src/unnamed/part_001:202-268). -/
theorem builtin_help_short_circuits (args : List String) (h : helpFlag args = true)
    (st : FSState) (stdin : String) (now : Nat) (fetch : String → FetchResult)
    (names : List String) :
    echoCmd args = usageRes echoUsage ∧
    pwdCmd args st = usageRes pwdUsage ∧
    writeCmd args st now = (usageRes writeUsage, st) ∧
    catCmd args stdin st = usageRes catUsage ∧
    lsCmd args st = usageRes lsUsage ∧
    historyCmd args st = usageRes historyUsage ∧
    curlCmd args fetch = usageRes curlUsage ∧
    grepCmd args stdin = usageRes grepUsage ∧
    helpCmd args names = usageRes helpUsage := by
  simp [echoCmd, pwdCmd, writeCmd, catCmd, lsCmd, historyCmd, curlCmd, grepCmd, helpCmd, h]

theorem builtin_help_short_circuits_witness :
    echoCmd ["--help"] = usageRes echoUsage ∧
    pwdCmd ["--help"] ⟨"/", [], []⟩ = usageRes pwdUsage ∧
    writeCmd ["--help"] ⟨"/", [], []⟩ 0 = (usageRes writeUsage, ⟨"/", [], []⟩) ∧
    catCmd ["--help"] "" ⟨"/", [], []⟩ = usageRes catUsage ∧
    lsCmd ["--help"] ⟨"/", [], []⟩ = usageRes lsUsage ∧
    historyCmd ["--help"] ⟨"/", [], []⟩ = usageRes historyUsage ∧
    curlCmd ["--help"] (fun _ => ⟨false, 0, "", ""⟩) = usageRes curlUsage ∧
    grepCmd ["--help"] "" = usageRes grepUsage ∧
    helpCmd ["--help"] [] = usageRes helpUsage :=
  builtin_help_short_circuits ["--help"] (by decide) ⟨"/", [], []⟩ "" 0
    (fun _ => ⟨false, 0, "", ""⟩) []

/-- The claim's description of grep's line selection: split stdin into lines,
drop blank lines, keep exactly the lines containing the pattern as a
substring, in their original order. -/
def isBlankLine (l : String) : Bool := jsTrim l = ""

/-- See `isBlankLine`: the selected lines, stated from the spec's words. -/
def grepSpecLines (pat stdin : String) : List String :=
  ((jsSplit '\n' stdin).filter (fun l => !(isBlankLine l))).filter (fun l => jsIncludes l pat)

/-- **C8**: for every stdin and non-empty pattern (other than the universal
`--help`/`-h` short-circuit of C7), grep's stdout consists exactly of the
non-blank input lines containing the pattern as a substring, in their
original order, newline-joined with a trailing newline when any line matched
(spec §6; src/unnamed/part_001:252-261). -/
theorem grep_keeps_matching_lines (pat stdin : String)
    (h1 : pat ≠ "--help") (h2 : pat ≠ "-h") (h3 : pat ≠ "") :
    grepCmd [pat] stdin =
      { stdout := String.intercalate "\n" (grepSpecLines pat stdin)
          ++ (if (grepSpecLines pat stdin).length = 0 then "" else "\n") } := by
  have hflag : helpFlag [pat] = false := by
    simp [helpFlag]
    exact ⟨fun e => h1 e.symm, fun e => h2 e.symm⟩
  simp [grepCmd, hflag, h3, grepSpecLines, isBlankLine]

theorem grep_keeps_matching_lines_witness :
    ("two" ≠ "--help" ∧ "two" ≠ "-h" ∧ "two" ≠ "") ∧
    grepCmd ["two"] "one two\nthree\n \ntwo two" =
      { stdout := String.intercalate "\n" (grepSpecLines "two" "one two\nthree\n \ntwo two")
          ++ (if (grepSpecLines "two" "one two\nthree\n \ntwo two").length = 0 then "" else "\n") } :=
  ⟨by decide,
    grep_keeps_matching_lines "two" "one two\nthree\n \ntwo two" (by decide) (by decide) (by decide)⟩

/-- **C9**: `grep` with no pattern argument and `curl` with no url argument
return a non-empty stderr message but leave the `exitCode` field absent, so
the defaulted exit code is 0: these argument errors are success at the
exit-code level (src/unnamed/part_001:247 and 257). -/
theorem missing_arg_reports_exit_zero (stdin : String) (fetch : String → FetchResult) :
    grepCmd [] stdin = { stderr := "grep: missing pattern\n" } ∧
    (grepCmd [] stdin).exitCode = none ∧
    effectiveExitCode (grepCmd [] stdin) = 0 ∧
    curlCmd [] fetch = { stderr := "curl: missing url\n" } ∧
    (curlCmd [] fetch).exitCode = none ∧
    effectiveExitCode (curlCmd [] fetch) = 0 :=
  ⟨rfl, rfl, rfl, rfl, rfl, rfl⟩

/-- **C10**: outside the `--help` short-circuit, `ls` prints the newline-joined
child list followed by a trailing newline when the directory has at least one
child, and exactly the empty string when it has none
(src/unnamed/part_001:230-236). -/
theorem ls_stdout_formatting (args : List String) (st : FSState)
    (h : helpFlag args = false) :
    (lsCmd args st).stdout =
      (if (VFS.list st (lsDirArg args)).length = 0 then ""
       else String.intercalate "\n" (VFS.list st (lsDirArg args)) ++ "\n") := by
  simp only [lsCmd, h, Bool.false_eq_true, if_false]
  by_cases hl : (VFS.list st (lsDirArg args)).length = 0
  · have hnil : VFS.list st (lsDirArg args) = [] := List.length_eq_zero.mp hl
    rw [hnil]
    rfl
  · simp [hl]

theorem ls_stdout_formatting_witness :
    helpFlag [] = false ∧
    (lsCmd [] ⟨"/", [("/hello.txt", ⟨"text", "hi", 0⟩), ("/notes/todo.txt", ⟨"text", "x", 0⟩)], []⟩).stdout
      = (if (VFS.list ⟨"/", [("/hello.txt", ⟨"text", "hi", 0⟩), ("/notes/todo.txt", ⟨"text", "x", 0⟩)], []⟩ (lsDirArg [])).length = 0 then ""
         else String.intercalate "\n" (VFS.list ⟨"/", [("/hello.txt", ⟨"text", "hi", 0⟩), ("/notes/todo.txt", ⟨"text", "x", 0⟩)], []⟩ (lsDirArg [])) ++ "\n") :=
  ⟨by decide,
    ls_stdout_formatting []
      ⟨"/", [("/hello.txt", ⟨"text", "hi", 0⟩), ("/notes/todo.txt", ⟨"text", "x", 0⟩)], []⟩
      (by decide)⟩

/-! ## Pipeline executor

lib/executor.js is not under src/, so the lexer, stage splitter and execution
loop below are modelled from spec §4.4 and §6. -/

/-- Modelled from the spec: the token alphabet of the pipeline lexer — words,
the unquoted/unescaped stage separator `|`, and the unquoted/unescaped
redirect character `>` (`>>` is two adjacent `>` tokens, merged by the stage
parser). -/
inductive Tok where
  | word (s : String)
  | pipe
  | gt
deriving DecidableEq, Repr

/-- The single-quote character. -/
def squote : Char := Char.ofNat 39

/-- The backslash character. -/
def bslash : Char := Char.ofNat 92

def unterminatedMsg : String := "ParseError: unterminated quote"

/-- Push the pending word, if non-empty, onto the token list. -/
def flushTok (cur : List Char) (acc : List Tok) : List Tok :=
  if cur.isEmpty then acc else acc ++ [Tok.word (String.mk cur)]

/-- Modelled from the spec (§4.4 Lexing): tokenize respecting single and
double quotes (whitespace-splitting suppressed while quoted) and backslash
escaping (next character taken literally); an unterminated quote is a
ParseError.  State: remaining input, open quote, pending escape, current
word, emitted tokens. -/
def lexGo : List Char → Option Char → Bool → List Char → List Tok → Except String (List Tok)
  | [], some _, _, _, _ => Except.error unterminatedMsg
  | [], none, _, cur, acc => Except.ok (flushTok cur acc)
  | c :: rest, q, esc, cur, acc =>
    if esc then lexGo rest q false (cur ++ [c]) acc
    else if c = bslash then lexGo rest q true cur acc
    else
      match q with
      | some qc =>
        if c = qc then lexGo rest none false cur acc
        else lexGo rest (some qc) false (cur ++ [c]) acc
      | none =>
        if c = '"' || c = squote then lexGo rest (some c) false cur acc
        else if c = '|' then lexGo rest none false [] (flushTok cur acc ++ [Tok.pipe])
        else if c = '>' then lexGo rest none false [] (flushTok cur acc ++ [Tok.gt])
        else if isJsSpace c then lexGo rest none false [] (flushTok cur acc)
        else lexGo rest none false (cur ++ [c]) acc

/-- The quoting automaton alone: the open quote (if any) after scanning the
input with the lexer's quote/escape discipline.  A line "contains an
unterminated quote" exactly when this is `some _` from the initial state. -/
def scanQ : List Char → Option Char → Bool → Option Char
  | [], q, _ => q
  | c :: rest, q, esc =>
    if esc then scanQ rest q false
    else if c = bslash then scanQ rest q true
    else
      match q with
      | some qc => if c = qc then scanQ rest none false else scanQ rest (some qc) false
      | none => if c = '"' || c = squote then scanQ rest (some c) false else scanQ rest none false

theorem lexGo_unterminated (l : List Char) : ∀ (q : Option Char) (esc : Bool)
    (cur : List Char) (acc : List Tok), scanQ l q esc ≠ none →
    lexGo l q esc cur acc = Except.error unterminatedMsg := by
  induction l with
  | nil =>
    intro q esc cur acc h
    cases q with
    | none => exact absurd rfl h
    | some qc => rfl
  | cons c rest ih =>
    intro q esc cur acc h
    cases esc with
    | true =>
      have h' : scanQ rest q false ≠ none := by simpa [scanQ] using h
      simpa [lexGo] using ih q false (cur ++ [c]) acc h'
    | false =>
      by_cases hb : c = bslash
      · have h' : scanQ rest q true ≠ none := by simpa [scanQ, hb] using h
        simpa [lexGo, hb] using ih q true cur acc h'
      · cases q with
        | some qc =>
          by_cases hq : c = qc
          · subst hq
            have h' : scanQ rest none false ≠ none := by simpa [scanQ, hb] using h
            simpa [lexGo, hb] using ih none false cur acc h'
          · have h' : scanQ rest (some qc) false ≠ none := by simpa [scanQ, hb, hq] using h
            simpa [lexGo, hb, hq] using ih (some qc) false (cur ++ [c]) acc h'
        | none =>
          by_cases h1 : c = '"'
          · have h' : scanQ rest (some c) false ≠ none := by simpa [scanQ, hb, h1] using h
            simpa [lexGo, hb, h1] using ih (some c) false cur acc h'
          · by_cases h2 : c = squote
            · have h' : scanQ rest (some c) false ≠ none := by simpa [scanQ, hb, h1, h2] using h
              simpa [lexGo, hb, h1, h2] using ih (some c) false cur acc h'
            · have h' : scanQ rest none false ≠ none := by simpa [scanQ, hb, h1, h2] using h
              by_cases h3 : c = '|'
              · simpa [lexGo, hb, h1, h2, h3] using
                  ih none false [] (flushTok cur acc ++ [Tok.pipe]) h'
              · by_cases h4 : c = '>'
                · simpa [lexGo, hb, h1, h2, h3, h4] using
                    ih none false [] (flushTok cur acc ++ [Tok.gt]) h'
                · by_cases h5 : isJsSpace c
                  · simpa [lexGo, hb, h1, h2, h3, h4, h5] using
                      ih none false [] (flushTok cur acc) h'
                  · simpa [lexGo, hb, h1, h2, h3, h4, h5] using
                      ih none false (cur ++ [c]) acc h'

/-- Modelled from the spec (§4.4 Stage splitting): split the token stream on
`|` into stage token groups. -/
def splitToksOnPipe : List Tok → List (List Tok)
  | [] => [[]]
  | Tok.pipe :: rest => [] :: splitToksOnPipe rest
  | t :: rest =>
    match splitToksOnPipe rest with
    | [] => [[t]]
    | h :: tl => (t :: h) :: tl

/-- A pipeline stage `{commandName, args, redirect}` (spec §3);
`redirect = some (target, isAppend)`. -/
structure Stage where
  name : String
  args : List String
  redirect : Option (String × Bool)
deriving DecidableEq, Repr

def wordsOnly : List Tok → Except String (List String)
  | [] => Except.ok []
  | Tok.word w :: rest => (wordsOnly rest).map (fun ws => w :: ws)
  | Tok.gt :: _ => Except.error "ParseError: misplaced redirect"
  | Tok.pipe :: _ => Except.error "ParseError: misplaced pipe"

def mkStage (ws : List String) (rd : Option (String × Bool)) : Except String Stage :=
  match ws with
  | [] => Except.error "ParseError: empty command"
  | name :: args => Except.ok ⟨name, args, rd⟩

/-- Modelled from the spec (§4.4 Stage splitting): a trailing `> target`
(overwrite) or `>> target` (append) is stripped into the final stage's
redirect field; a redirect anywhere else is a ParseError. -/
def toStage (isLast : Bool) (ts : List Tok) : Except String Stage :=
  match ts.reverse with
  | Tok.word tgt :: Tok.gt :: Tok.gt :: revRest =>
    if isLast then (wordsOnly revRest.reverse).bind (fun ws => mkStage ws (some (tgt, true)))
    else Except.error "ParseError: redirect before final stage"
  | Tok.word tgt :: Tok.gt :: revRest =>
    if isLast then (wordsOnly revRest.reverse).bind (fun ws => mkStage ws (some (tgt, false)))
    else Except.error "ParseError: redirect before final stage"
  | _ => (wordsOnly ts).bind (fun ws => mkStage ws none)

def toStages : List (List Tok) → Except String (List Stage)
  | [] => Except.ok []
  | [g] => (toStage true g).map (fun s => [s])
  | g :: gs => (toStage false g).bind (fun s => (toStages gs).map (fun ss => s :: ss))

/-- Modelled from the spec (§4.4): lex the line, split into stages, parse the
final redirect. -/
def parseLine (line : String) : Except String (List Stage) :=
  (lexGo line.data none false [] []).bind (fun toks => toStages (splitToksOnPipe toks))

/-- A command handler, uniformly: arguments, piped stdin, current time, and
the filesystem state, producing a result and the updated state. -/
def Handler : Type := List String → String → Nat → FSState → CommandResult × FSState

/-- The command registry: name → handler, insertion-ordered (spec §4.3). -/
def Registry : Type := List (String × Handler)

/-- Modelled from the spec (§4.4 Execution): apply a trailing redirect —
overwrite replaces file content, append concatenates to existing content,
creating the file if absent. -/
def redirWrite (st : FSState) (target : String) (isAppend : Bool) (content : String)
    (now : Nat) : FSState :=
  if isAppend then
    let old := match VFS.read st target with
      | Except.ok txt => txt
      | Except.error _ => ""
    VFS.write st target (old ++ content) now
  else VFS.write st target content now

/-- Modelled from the spec (§4.4 Execution): process stages strictly left to
right; an unresolved command name yields
`{stderr: "<name>: command not found\n", exitCode: 127}` and the pipeline
aborts; any non-zero exit code stops the pipeline; on success a stage's
stdout becomes the next stage's stdin; a final-stage redirect diverts stdout
into the VFS. -/
def execStages (reg : Registry) (now : Nat) : List Stage → String → FSState → CommandResult × FSState
  | [], stdin, st => ({ stdout := stdin }, st)
  | s :: rest, stdin, st =>
    match lookupKey reg s.name with
    | none => ({ stderr := s.name ++ ": command not found\n", exitCode := some 127 }, st)
    | some handler =>
      let res := handler s.args stdin now st
      if effectiveExitCode res.1 ≠ 0 then res
      else
        match rest with
        | [] =>
          match s.redirect with
          | none => res
          | some (target, isAppend) =>
            ({ res.1 with stdout := "" }, redirWrite res.2 target isAppend res.1.stdout now)
        | _ :: _ => execStages reg now rest res.1.stdout res.2

/-- Modelled from the spec (§4.4, §6, §8): parse the line (a ParseError
executes nothing and leaves the state — including the history — untouched),
record the successfully parsed line in the history, then run the stages with
empty initial stdin. -/
def runLine (reg : Registry) (st : FSState) (now : Nat) (line : String) :
    Except String CommandResult × FSState :=
  match parseLine line with
  | Except.error e => (Except.error e, st)
  | Except.ok stages =>
    let st1 := VFS.historyPush st line
    let res := execStages reg now stages "" st1
    (Except.ok res.1, res.2)

def echoH : Handler := fun args _ _ st => (echoCmd args, st)
def pwdH : Handler := fun args _ _ st => (pwdCmd args st, st)
def writeH : Handler := fun args _ now st => writeCmd args st now
def catH : Handler := fun args stdin _ st => (catCmd args stdin st, st)
def lsH : Handler := fun args _ _ st => (lsCmd args st, st)
def historyH : Handler := fun args _ _ st => (historyCmd args st, st)
def curlH (fetch : String → FetchResult) : Handler := fun args _ _ st => (curlCmd args fetch, st)
def grepH : Handler := fun args stdin _ st => (grepCmd args stdin, st)

/-- `registry.list()` of the demo registry: the nine names, sorted. -/
def demoNames : List String :=
  ["cat", "curl", "echo", "grep", "help", "history", "ls", "pwd", "write"]

def helpH : Handler := fun args _ _ st => (helpCmd args demoNames, st)

/-- The registry assembled by the terminal demo (src/unnamed/part_001:202-268),
in registration order; `fetch` abstracts the network. -/
def demoRegistry (fetch : String → FetchResult) : Registry :=
  [("echo", echoH), ("pwd", pwdH), ("write", writeH), ("cat", catH), ("ls", lsH),
   ("history", historyH), ("curl", curlH fetch), ("grep", grepH), ("help", helpH)]

/-- The abort result of an unresolved command name (spec §4.4). -/
def cnfResult (name : String) : CommandResult :=
  { stderr := name ++ ": command not found\n", exitCode := some 127 }

/-- **C1**: when a stage's command name does not resolve in the registry, the
pipeline result is `{stderr: "<name>: command not found\n", exitCode: 127}`
and no later stage executes (the result and state are independent of the
remaining stages); in particular `runLine "nosuchcmd | echo x"` on the demo
registry yields that result and its stdout does not contain `"x"`
(spec §4.4, §8). -/
theorem pipeline_aborts_on_unresolved_name :
    (∀ (reg : Registry) (now : Nat) (name : String) (args : List String)
        (rd : Option (String × Bool)) (rest : List Stage) (stdin : String) (st : FSState),
        lookupKey reg name = none →
        execStages reg now (⟨name, args, rd⟩ :: rest) stdin st = (cnfResult name, st))
    ∧ (∀ (fetch : String → FetchResult) (st : FSState) (now : Nat),
        runLine (demoRegistry fetch) st now "nosuchcmd | echo x"
          = (Except.ok (cnfResult "nosuchcmd"), VFS.historyPush st "nosuchcmd | echo x")
        ∧ jsIncludes (cnfResult "nosuchcmd").stdout "x" = false) := by
  constructor
  · intro reg now name args rd rest stdin st h
    simp [execStages, h, cnfResult]
  · intro fetch st now
    exact ⟨rfl, rfl⟩

theorem pipeline_aborts_on_unresolved_name_witness :
    execStages (demoRegistry (fun _ => ⟨false, 0, "", ""⟩)) 0
        [⟨"nosuchcmd", [], none⟩, ⟨"echo", ["x"], none⟩] "" ⟨"/", [], []⟩
      = (cnfResult "nosuchcmd", ⟨"/", [], []⟩) :=
  pipeline_aborts_on_unresolved_name.1 (demoRegistry (fun _ => ⟨false, 0, "", ""⟩)) 0
    "nosuchcmd" [] none [⟨"echo", ["x"], none⟩] "" ⟨"/", [], []⟩ rfl

/-- **C4**: every line containing an unterminated single or double quote (the
quoting automaton ends in an open-quote state) is a ParseError: `runLine`
signals the parse failure, nothing executes, and the state — filesystem and
history alike — is returned unchanged (spec §4.4, §8;
the lexer is modelled from the spec, cf. `shellSplit`,
src/unnamed/part_001:271-275). -/
theorem unterminated_quote_is_parse_error (line : String) (reg : Registry)
    (st : FSState) (now : Nat) (h : scanQ line.data none false ≠ none) :
    runLine reg st now line = (Except.error unterminatedMsg, st) := by
  have hlex := lexGo_unterminated line.data none false [] [] h
  simp [runLine, parseLine, hlex, Except.bind]

theorem unterminated_quote_is_parse_error_witness :
    scanQ "echo \"abc".data none false ≠ none ∧
    runLine (demoRegistry (fun _ => ⟨false, 0, "", ""⟩)) ⟨"/", [], []⟩ 0 "echo \"abc"
      = (Except.error unterminatedMsg, ⟨"/", [], []⟩) :=
  ⟨by decide,
    unterminated_quote_is_parse_error "echo \"abc"
      (demoRegistry (fun _ => ⟨false, 0, "", ""⟩)) ⟨"/", [], []⟩ 0 (by decide)⟩
